import Mathlib

/-!
Shallow embedding of `pyrallel/queue.py` (class `ShmQueue`), the shared-memory
multi-producer/multi-consumer queue, together with proofs about its publish
(`put`) and consume (`get`) protocols.

Modelling conventions:
* Byte strings (`bytes`) are `List Nat`.
* The 12-byte message id field is modelled as a `Nat`; the all-zero sentinel
  `EMPTY_MSG_ID = b'\x00' * 12` is modelled as `0`.  `generate_msg_id` renders
  the strictly positive counter `mid_counter + 1` as twelve hex characters,
  which is a nonzero byte string, so positivity faithfully models
  "differs from the empty sentinel".
* The semantics is single-process and sequential: lock acquisitions always
  succeed immediately, and the unbounded scan loops (`next_writable_block_id`,
  `next_readable_msg`) are modelled as a single full pass over the pool, which
  is exactly the behaviour of the non-blocking / timeout-exhausted paths that
  raise `Full` / `Empty`.  `read_next_block_id`, which spins forever until a
  matching block appears, is modelled as `Option` with `none` standing for
  divergence (no matching block in the pool).
* Exceptions are the explicit `PyError` type; a raising call returns
  `.error (e, st)` where `st` is the queue state at the moment of the raise.
-/

namespace Pyrallel

/-- Byte strings are lists of naturals. -/
abbrev Bytes := List Nat

/-- `ShmQueue.MAX_CHUNK_SIZE = 512 * 1024 * 1024` (queue.py line 66). -/
def MAX_CHUNK_SIZE : Nat := 512 * 1024 * 1024

/-- `ShmQueue.EMPTY_MSG_ID = b'\x00' * 12` (queue.py line 70), modelled as the
natural number 0 (message ids are modelled as naturals, nonzero iff the
underlying 12 bytes are not all zero). -/
def EMPTY_MSG_ID : Nat := 0

/-- `ShmQueue.RESERVED_CHUNK_ID = 0xffff` (queue.py line 71). -/
def RESERVED_CHUNK_ID : Nat := 0xffff

/-- The metadata record at the head of each shared block, one field per entry
of `ShmQueue.META_STRUCT` (queue.py lines 72-80). -/
structure BlockMeta where
  msg_id : Nat
  msg_size : Nat
  chunk_id : Nat
  total_chunks : Nat
  total_msg_size : Nat
  checksum : Nat
  src_pid : Nat
deriving Repr, DecidableEq

/-- One shared-memory block: 36 metadata bytes (modelled as the record) plus a
`chunk_size`-byte payload area. -/
structure Block where
  meta : BlockMeta
  data : Bytes
deriving Repr, DecidableEq

/-- A freshly allocated block: `SharedMemory(create=True, ...)` is zero-filled
(queue.py line 123), so every metadata field is zero and the payload area is
`chunk_size` zero bytes. -/
def free_block (chunk_size : Nat) : Block :=
  { meta := { msg_id := 0, msg_size := 0, chunk_id := 0, total_chunks := 0,
              total_msg_size := 0, checksum := 0, src_pid := 0 },
    data := List.replicate chunk_size 0 }

/-- The configuration flags of a queue instance (queue.py lines 104-113). -/
structure Cfg where
  chunk_size : Nat
  maxsize : Nat
  integrity_check : Bool
  deadlock_immanent_check : Bool
deriving Repr, DecidableEq

/-- The mutable state of a queue instance: the block pool and the message-id
counter `mid_counter` (queue.py line 116). -/
structure QState where
  blocks : List Block
  mid_counter : Nat
deriving Repr, DecidableEq

/-- The pool as built by `__init__` (queue.py lines 121-123): `maxsize`
zero-filled blocks, `mid_counter = 0`. -/
def fresh_state (cfg : Cfg) : QState :=
  { blocks := List.replicate cfg.maxsize (free_block cfg.chunk_size),
    mid_counter := 0 }

/-- Exception kinds raised by the code paths modelled here. -/
inductive PyError where
  | full
  | empty
  | valueError
  | unpicklingError
  | attributeError
  | otherError
deriving Repr, DecidableEq

/-- The serializer collaborator: `dumps(obj) -> bytes` and
`loads(bytes) -> obj`, where `loads` may raise (modelled as `Except`). -/
structure Serializer (α : Type) where
  dumps : α → Bytes
  loads : Bytes → Except PyError α

instance {ε α : Type} [DecidableEq ε] [DecidableEq α] : DecidableEq (Except ε α) :=
  fun a b =>
    match a, b with
    | .ok x, .ok y =>
      if h : x = y then .isTrue (by rw [h]) else .isFalse (by intro hc; cases hc; exact h rfl)
    | .error x, .error y =>
      if h : x = y then .isTrue (by rw [h]) else .isFalse (by intro hc; cases hc; exact h rfl)
    | .ok _, .error _ => .isFalse (by intro hc; cases hc)
    | .error _, .ok _ => .isFalse (by intro hc; cases hc)

/-- `zlib.adler32`: running sums `a` (initialised to 1) and `b` modulo 65521,
result `b * 2^16 + a`. -/
def adler32 (data : Bytes) : Nat :=
  let p := data.foldl
    (fun ab x =>
      let a := (ab.1 + x) % 65521
      (a, (ab.2 + a) % 65521))
    (1, 0)
  p.2 * 65536 + p.1

/-- `math.ceil(a / c)` on naturals (for `c > 0`): `(a + c - 1) / c`.  Used for
`total_chunks = math.ceil(len(msg_body) / self.chunk_size)` (queue.py 259). -/
def ceil_div (a c : Nat) : Nat := (a + c - 1) / c

/-- `msg_body[i * chunk_size : (i + 1) * chunk_size]` (queue.py line 322). -/
def chunk_data (msg_body : Bytes) (chunk_size i : Nat) : Bytes :=
  (msg_body.drop (i * chunk_size)).take chunk_size

/-- `set_data(block, data, data_size)` (queue.py lines 148-149): overwrite the
first `data_size` bytes of the payload area, leaving the tail untouched. -/
def set_data (b : Block) (d : Bytes) (data_size : Nat) : Block :=
  { b with data := d ++ b.data.drop data_size }

/-- Model of cross-process lock allocation: each call of `ctx.Lock()` returns
a fresh lock object, identified by an allocation counter. -/
def ctx_Lock (next_lock : Nat) : Nat × Nat := (next_lock, next_lock + 1)

/-- `self.block_locks = [ctx.Lock()] * maxsize` (queue.py line 120): Python
evaluates `ctx.Lock()` once and list repetition copies the same object
reference `maxsize` times, so every entry denotes the same lock. -/
def block_locks (maxsize : Nat) : List Nat :=
  let lk := (ctx_Lock 0).1
  List.replicate maxsize lk

/-- `self.chunk_size = min(chunk_size, MAX_CHUNK_SIZE) if chunk_size > 0 else
MAX_CHUNK_SIZE` (queue.py lines 104-105); the constructor argument is a Python
int, so it is modelled as `Int`. -/
def effective_chunk_size (chunk_size : Int) : Int :=
  if chunk_size > 0 then min chunk_size (MAX_CHUNK_SIZE : Int)
  else (MAX_CHUNK_SIZE : Int)

/-- Reservation stamp of `next_writable_block_id` (queue.py lines 174-181):
under the block lock write `msg_id`, `src_pid` and the reserved chunk id. -/
def reserve_meta (b : Block) (msg_id src_pid : Nat) : Block :=
  { b with
    meta := { b.meta with
              msg_id := msg_id,
              src_pid := src_pid,
              chunk_id := RESERVED_CHUNK_ID } }

/-- `next_writable_block_id` (queue.py lines 159-196): scan the pool in index
order for the first FREE block (`msg_id == EMPTY_MSG_ID`), stamp it reserved
and return its index together with the updated pool; `none` models the `Full`
raise after a full fruitless pass (non-blocking / timeout-exhausted path). -/
def next_writable_block_id (msg_id src_pid : Nat) : List Block → Option (Nat × List Block)
  | [] => none
  | b :: bs =>
    if b.meta.msg_id = EMPTY_MSG_ID then
      some (0, reserve_meta b msg_id src_pid :: bs)
    else
      match next_writable_block_id msg_id src_pid bs with
      | none => none
      | some (i, bs2) => some (i + 1, b :: bs2)

/-- Release one block: re-stamp its `msg_id` with the empty sentinel under the
block lock (queue.py lines 296-299 and 454-456). -/
def set_msg_id_empty (blocks : List Block) (block_id : Nat) : List Block :=
  match blocks[block_id]? with
  | none => blocks
  | some b =>
    blocks.set block_id { b with meta := { b.meta with msg_id := EMPTY_MSG_ID } }

/-- Release every block in `ids`, in order. -/
def release_blocks (blocks : List Block) (ids : List Nat) : List Block :=
  ids.foldl set_msg_id_empty blocks

/-- Outcome of the reservation loop of `put` (queue.py lines 285-300): either
all requested blocks were reserved, or the scan came up empty (`Full`) with
the ids reserved so far still stamped (rollback happens in `put`). -/
inductive ReserveResult where
  | ok (ids : List Nat) (blocks : List Block)
  | fullAfter (ids : List Nat) (blocks : List Block)
deriving Repr, DecidableEq

/-- The reservation loop `for i in range(total_chunks)` of `put` (queue.py
lines 285-300), without the rollback (which `put` performs on `fullAfter`). -/
def reserve_blocks (msg_id src_pid : Nat) : List Block → Nat → ReserveResult
  | blocks, 0 => .ok [] blocks
  | blocks, n + 1 =>
    match next_writable_block_id msg_id src_pid blocks with
    | none => .fullAfter [] blocks
    | some (i, blocks2) =>
      match reserve_blocks msg_id src_pid blocks2 n with
      | .ok ids bOut => .ok (i :: ids) bOut
      | .fullAfter ids bOut => .fullAfter (i :: ids) bOut

/-- The chunk-commit loop of `put` (queue.py lines 316-339): for the `i`-th
reserved block id, write `msg_id`, `msg_size`, `chunk_id = i + 1`,
`total_chunks` and (when integrity checking) `total_msg_size` and the chunk's
Adler-32, then copy the chunk payload. -/
def write_chunks (cfg : Cfg) (msg_id total_chunks total_msg_size : Nat)
    (msg_body : Bytes) : List Block → List Nat → Nat → List Block
  | blocks, [], _ => blocks
  | blocks, block_id :: rest, i =>
    let cd := chunk_data msg_body cfg.chunk_size i
    let msg_size := cd.length
    let blocks2 :=
      match blocks[block_id]? with
      | none => blocks
      | some b =>
        let m1 := { b.meta with
                    msg_id := msg_id,
                    msg_size := msg_size,
                    chunk_id := i + 1,
                    total_chunks := total_chunks }
        let m2 := if cfg.integrity_check then
            { m1 with total_msg_size := total_msg_size, checksum := adler32 cd }
          else m1
        blocks.set block_id (set_data { b with meta := m2 } cd msg_size)
    write_chunks cfg msg_id total_chunks total_msg_size msg_body blocks2 rest (i + 1)

/-- The integrity pre-check of `put` (queue.py lines 253-257): when enabled,
run `loads` on the just-serialized bytes; a raise propagates. -/
def integrity_pre {α : Type} (cfg : Cfg) (ser : Serializer α) (msg_body : Bytes) :
    Except PyError Unit :=
  if cfg.integrity_check then
    match ser.loads msg_body with
    | .ok _ => .ok ()
    | .error e => .error e
  else .ok ()

/-- `ShmQueue.put` (queue.py lines 238-342) in the sequential model:
generate a message id, serialize, integrity pre-check, deadlock-immanent
check (`ValueError`, the `CapacityExceeded` kind), reserve `total_chunks`
blocks under the producer gate (rolling back and raising `Full` if the scan
fails), then commit the chunks.  The result carries the queue state at return
or at the raise. -/
def ShmQueue.put {α : Type} (cfg : Cfg) (ser : Serializer α) (src_pid : Nat)
    (st : QState) (msg : α) : Except (PyError × QState) QState :=
  let msg_id := st.mid_counter + 1
  let st1 : QState := { st with mid_counter := st.mid_counter + 1 }
  let msg_body := ser.dumps msg
  match integrity_pre cfg ser msg_body with
  | .error e => .error (e, st1)
  | .ok _ =>
    let total_chunks := ceil_div msg_body.length cfg.chunk_size
    if cfg.deadlock_immanent_check = true ∧ total_chunks > cfg.maxsize then
      .error (.valueError, st1)
    else
      match reserve_blocks msg_id src_pid st1.blocks total_chunks with
      | .fullAfter ids blocks2 =>
        .error (.full, { st1 with blocks := release_blocks blocks2 ids })
      | .ok ids blocks2 =>
        .ok { st1 with
              blocks := write_chunks cfg msg_id total_chunks msg_body.length
                          msg_body blocks2 ids 0 }

/-- The consumer's claim stamp (queue.py line 211): rewrite `chunk_id` to the
reservation sentinel under the block lock. -/
def claim_chunk (b : Block) : Block :=
  { b with meta := { b.meta with chunk_id := RESERVED_CHUNK_ID } }

/-- `next_readable_msg` (queue.py lines 198-218): scan for a head chunk
(`msg_id != EMPTY` and `chunk_id == 1`), rewrite its `chunk_id` to the
reservation sentinel under the block lock, and return
`(src_pid, msg_id, block index, total_chunks)` with the updated pool; `none`
models the `Empty` raise after a full fruitless pass. -/
def next_readable_msg : List Block → Option (Nat × Nat × Nat × Nat × List Block)
  | [] => none
  | b :: bs =>
    if b.meta.msg_id ≠ EMPTY_MSG_ID ∧ b.meta.chunk_id = 1 then
      some (b.meta.src_pid, b.meta.msg_id, 0, b.meta.total_chunks,
            claim_chunk b :: bs)
    else
      match next_readable_msg bs with
      | none => none
      | some (p, m, i, n, bs2) => some (p, m, i + 1, n, b :: bs2)

/-- `read_next_block_id` (queue.py lines 220-232): find the block holding
chunk `chunk_id` of message `(src_pid, msg_id)`.  The code spins forever until
one appears; `none` models that divergence (no matching block). -/
def read_next_block_id (src_pid msg_id chunk_id : Nat) : List Block → Option Nat
  | [] => none
  | b :: bs =>
    if b.meta.msg_id = msg_id ∧ b.meta.chunk_id = chunk_id ∧ b.meta.src_pid = src_pid then
      some 0
    else
      match read_next_block_id src_pid msg_id chunk_id bs with
      | none => none
      | some i => some (i + 1)

/-- The gather loop of `get` (queue.py lines 378-383): locate the blocks for
chunk ids `chunk_id, chunk_id + 1, ...` (`count` of them). -/
def gather_ids (blocks : List Block) (src_pid msg_id : Nat) : Nat → Nat → Option (List Nat)
  | _, 0 => some []
  | chunk_id, count + 1 =>
    match read_next_block_id src_pid msg_id chunk_id blocks with
    | none => none
    | some i =>
      match gather_ids blocks src_pid msg_id (chunk_id + 1) count with
      | none => none
      | some rest => some (i :: rest)

/-- The copy-out loop of `get` (queue.py lines 405-425): for the `i`-th held
block read `msg_size`, the head's `total_msg_size` (integrity only), the
checksum, and the first `msg_size` payload bytes; a checksum mismatch raises
`ValueError`.  Returns the chunk list and the `total_msg_size` read from the
head (threaded through `tms`, 0 when integrity checking is off). -/
def read_chunks (cfg : Cfg) (blocks : List Block) : List Nat → Nat → Nat →
    Except PyError (List Bytes × Nat)
  | [], _, tms => .ok ([], tms)
  | block_id :: rest, i, tms =>
    match blocks[block_id]? with
    | none => .error .otherError
    | some b =>
      let msg_size := b.meta.msg_size
      let tms2 := if cfg.integrity_check ∧ i = 0 then b.meta.total_msg_size else tms
      let chunk := b.data.take msg_size
      if cfg.integrity_check ∧ adler32 chunk ≠ b.meta.checksum then
        .error .valueError
      else
        match read_chunks cfg blocks rest (i + 1) tms2 with
        | .error e => .error e
        | .ok (cs, tmsOut) => .ok (chunk :: cs, tmsOut)

/-- `ShmQueue.get` (queue.py lines 344-458) in the sequential model: claim a
head chunk (raising `Empty` on a fruitless pass), gather the remaining
chunks (`none` = the spin of `read_next_block_id` diverges), copy the chunks
out with integrity checks, verify the total length, deserialize, and in every
exit path release all held blocks (the `finally` of lines 449-458).
`buf_msg_body = [None] * total_chunks` (line 403) has `total_chunks` slots, so
when more block ids than that were gathered the assignment
`buf_msg_body[i] = ...` raises IndexError (`otherError` here).  When `loads`
raises `pickle.UnpicklingError` and integrity checking is on, the diagnostic
print at line 446 reads `self.pid` — an attribute that does not exist — so the
handler itself raises `AttributeError`, replacing the original exception. -/
def ShmQueue.get {α : Type} (cfg : Cfg) (ser : Serializer α) (st : QState) :
    Option (Except (PyError × QState) (α × QState)) :=
  match next_readable_msg st.blocks with
  | none => some (.error (.empty, st))
  | some (src_pid, msg_id, block_id, total_chunks, blocks1) =>
    match gather_ids blocks1 src_pid msg_id 2 (total_chunks - 1) with
    | none => none
    | some rest_ids =>
      let msg_block_ids := block_id :: rest_ids
      let released : QState := { st with blocks := release_blocks blocks1 msg_block_ids }
      if total_chunks < msg_block_ids.length then
        some (.error (.otherError, released))
      else
        match read_chunks cfg blocks1 msg_block_ids 0 0 with
        | .error e => some (.error (e, released))
        | .ok (chunks, total_msg_size) =>
          let msg_body := chunks.flatten
          if cfg.integrity_check ∧ total_msg_size ≠ msg_body.length then
            some (.error (.valueError, released))
          else
            match ser.loads msg_body with
            | .ok msg => some (.ok (msg, released))
            | .error e =>
              if e = .unpicklingError ∧ cfg.integrity_check then
                some (.error (.attributeError, released))
              else
                some (.error (e, released))

/-- Number of FREE blocks (blocks whose `msg_id` is the empty sentinel). -/
def count_free (blocks : List Block) : Nat :=
  blocks.countP (fun b => b.meta.msg_id == EMPTY_MSG_ID)

/-- Freeness of the block at index `j` (`false` out of range). -/
def free_at (blocks : List Block) (j : Nat) : Bool :=
  match blocks[j]? with
  | none => false
  | some b => b.meta.msg_id == EMPTY_MSG_ID

/-- A block as left by the reservation scan: a zero-filled block stamped with
`msg_id`, `src_pid` and the reserved chunk id. -/
def reserved_block (cfg : Cfg) (msg_id src_pid : Nat) : Block :=
  reserve_meta (free_block cfg.chunk_size) msg_id src_pid

/-- Pool during the reservation phase of a publish on a fresh queue: the first
`k` blocks reserved, the rest untouched. -/
def res_state (cfg : Cfg) (msg_id src_pid k : Nat) : List Block :=
  List.replicate k (reserved_block cfg msg_id src_pid) ++
    List.replicate (cfg.maxsize - k) (free_block cfg.chunk_size)

/-- Block `i` as left by the chunk-commit loop of a publish on a fresh queue:
chunk `i + 1` of the message, with the integrity fields filled only when
integrity checking is enabled. -/
def pub_block (cfg : Cfg) (msg_id src_pid total_chunks total_msg_size : Nat)
    (msg_body : Bytes) (i : Nat) : Block :=
  let cd := chunk_data msg_body cfg.chunk_size i
  { meta := { msg_id := msg_id, msg_size := cd.length, chunk_id := i + 1,
              total_chunks := total_chunks,
              total_msg_size := if cfg.integrity_check then total_msg_size else 0,
              checksum := if cfg.integrity_check then adler32 cd else 0,
              src_pid := src_pid },
    data := cd ++ (List.replicate cfg.chunk_size 0).drop cd.length }

/-- Pool during the chunk-commit loop of a publish on a fresh queue: the first
`t` blocks published, then `total_chunks - t` still reserved, then the free
remainder. -/
def pub_state (cfg : Cfg) (msg_id src_pid total_chunks total_msg_size : Nat)
    (msg_body : Bytes) (t : Nat) : List Block :=
  (List.range' 0 t).map
      (pub_block cfg msg_id src_pid total_chunks total_msg_size msg_body) ++
    (List.replicate (total_chunks - t) (reserved_block cfg msg_id src_pid) ++
     List.replicate (cfg.maxsize - total_chunks) (free_block cfg.chunk_size))

/-- Pool after the consumer has claimed the head chunk of the single message
published on a fresh queue. -/
def claimed_state (cfg : Cfg) (msg_id src_pid total_chunks total_msg_size : Nat)
    (msg_body : Bytes) : List Block :=
  claim_chunk (pub_block cfg msg_id src_pid total_chunks total_msg_size msg_body 0) ::
    ((List.range' 1 (total_chunks - 1)).map
        (pub_block cfg msg_id src_pid total_chunks total_msg_size msg_body) ++
     List.replicate (cfg.maxsize - total_chunks) (free_block cfg.chunk_size))

/-- A well-behaved serializer over naturals used as a concrete witness:
`dumps n` is `n` one-bytes, `loads` returns the length. -/
def natSerializer : Serializer Nat :=
  { dumps := fun n => List.replicate n 1,
    loads := fun b => .ok b.length }

/-- A serializer whose serialized form is the empty byte string, used to
exercise the zero-length-payload path; it round-trips (`loads` of anything is
`0`, the only value). -/
def emptySerializer : Serializer Nat :=
  { dumps := fun _ => [],
    loads := fun _ => .ok 0 }

/-- A serializer whose `loads` always raises `pickle.UnpicklingError`, used to
exercise the deserialization-failure path of `get`. -/
def badLoadsSerializer : Serializer Nat :=
  { dumps := fun n => List.replicate n 1,
    loads := fun _ => .error .unpicklingError }

/-- Default-flag configuration with `chunk_size = 4`, `maxsize = 2`. -/
def cfg42 : Cfg :=
  { chunk_size := 4, maxsize := 2, integrity_check := true,
    deadlock_immanent_check := true }

/-- Default-flag configuration with `chunk_size = 1`, `maxsize = 2`. -/
def cfg_c3 : Cfg :=
  { chunk_size := 1, maxsize := 2, integrity_check := true,
    deadlock_immanent_check := true }

/-- Default-flag configuration with `chunk_size = 4`, `maxsize = 1`. -/
def cfg_c6 : Cfg :=
  { chunk_size := 4, maxsize := 1, integrity_check := true,
    deadlock_immanent_check := true }

/-- A block occupied by some other producer's chunk (chunk 3 of message 5). -/
def occupied_block : Block :=
  { meta := { msg_id := 5, msg_size := 0, chunk_id := 3, total_chunks := 0,
              total_msg_size := 0, checksum := 0, src_pid := 9 },
    data := [0] }

/-- A `cfg_c3` pool with one occupied and one free block. -/
def one_free_state : QState :=
  { blocks := [occupied_block, free_block 1], mid_counter := 0 }

/-- A single published one-chunk message (head block of message 1, one payload
byte `7`) in a `cfg_c6` pool. -/
def c6_block : Block :=
  { meta := { msg_id := 1, msg_size := 1, chunk_id := 1, total_chunks := 1,
              total_msg_size := 1, checksum := adler32 [7], src_pid := 42 },
    data := [7, 0, 0, 0] }

/-- A `cfg_c6` queue holding exactly the message of `c6_block`. -/
def c6_state : QState :=
  { blocks := [c6_block], mid_counter := 5 }

/-- The `c6_state` pool after `get` claimed the head and released it in the
`finally` clause: `msg_id` back to the empty sentinel, the claim stamp and the
stale payload left behind. -/
def c6_released : QState :=
  { blocks := [{ meta := { msg_id := 0, msg_size := 1, chunk_id := RESERVED_CHUNK_ID,
                           total_chunks := 1, total_msg_size := 1,
                           checksum := adler32 [7], src_pid := 42 },
                 data := [7, 0, 0, 0] }],
    mid_counter := 5 }

/-- The `one_free_state` pool after a failed two-chunk publish rolled its one
reservation back: block 1 is FREE again (stale reservation stamp left in the
other fields), the message id was consumed. -/
def c3_rolled : QState :=
  { blocks := [occupied_block,
               { meta := { msg_id := 0, msg_size := 0, chunk_id := RESERVED_CHUNK_ID,
                           total_chunks := 0, total_msg_size := 0, checksum := 0,
                           src_pid := 42 },
                 data := [0] }],
    mid_counter := 1 }

/-! ## Theorems -/

/-- C9: for every constructor argument `chunk_size`, the queue's effective
chunk size equals `min(chunk_size, MAX_CHUNK_SIZE)` when `chunk_size > 0` and
equals `MAX_CHUNK_SIZE = 512 MiB` when `chunk_size <= 0`. -/
theorem chunk_size_clamp (c : Int) :
    (0 < c → effective_chunk_size c = min c (MAX_CHUNK_SIZE : Int)) ∧
    (c ≤ 0 → effective_chunk_size c = (MAX_CHUNK_SIZE : Int)) ∧
    MAX_CHUNK_SIZE = 512 * 1024 * 1024 := by
  refine ⟨fun h => ?_, fun h => ?_, rfl⟩
  · unfold effective_chunk_size
    rw [if_pos h]
  · unfold effective_chunk_size
    rw [if_neg (by omega)]

/-- Witness for `chunk_size_clamp`: a positive argument is clamped and a
negative one falls back to the maximum. -/
theorem chunk_size_clamp_witness :
    effective_chunk_size 1073741824 = min (1073741824 : Int) (MAX_CHUNK_SIZE : Int) ∧
    effective_chunk_size (-3) = (MAX_CHUNK_SIZE : Int) :=
  ⟨(chunk_size_clamp 1073741824).1 (by norm_num),
   (chunk_size_clamp (-3)).2.1 (by norm_num)⟩

/-- C2 (evaluating the code at the failing input): with `maxsize = 2` the two
entries of `block_locks` are the *same* lock object — `[ctx.Lock()] * maxsize`
allocates a single lock (allocation id 0) and repeats the reference — so the
blocks do not get distinct mutual-exclusion locks and locking block 0 does
exclude access to block 1. -/
theorem block_locks_all_same :
    (block_locks 2)[0]? = (block_locks 2)[1]? ∧
    (block_locks 2)[0]? = some ((ctx_Lock 0).1) := by decide

/-- C4: with the deadlock-immanent check enabled, a message whose serialized
length needs more than `maxsize` chunks makes `put` fail with the
`CapacityExceeded` `ValueError`, and the block pool is untouched (only the
message-id counter was consumed). -/
theorem put_capacity_exceeded {α : Type} (cfg : Cfg) (ser : Serializer α)
    (src_pid : Nat) (st : QState) (msg : α)
    (hdl : cfg.deadlock_immanent_check = true)
    (hpre : integrity_pre cfg ser (ser.dumps msg) = .ok ())
    (hbig : cfg.maxsize < ceil_div (ser.dumps msg).length cfg.chunk_size) :
    ∃ st2, ShmQueue.put cfg ser src_pid st msg = .error (.valueError, st2) ∧
      st2.blocks = st.blocks := by
  refine ⟨{ st with mid_counter := st.mid_counter + 1 }, ?_, rfl⟩
  unfold ShmQueue.put
  simp only [hpre]
  rw [if_pos ⟨hdl, hbig⟩]

/-- Witness for `put_capacity_exceeded`: a 9-byte message needs 3 chunks, more
than the 2 blocks of `cfg42`. -/
theorem put_capacity_exceeded_witness :
    ∃ st2, ShmQueue.put cfg42 natSerializer 42 (fresh_state cfg42) 9 =
      .error (.valueError, st2) ∧ st2.blocks = (fresh_state cfg42).blocks :=
  put_capacity_exceeded cfg42 natSerializer 42 (fresh_state cfg42) 9
    (by decide) (by decide) (by decide)

/-- C10: with integrity checking enabled, `put` runs the serializer's `loads`
on the just-serialized bytes before reserving anything; if that raises, the
exception propagates unchanged and the block pool is untouched. -/
theorem put_integrity_check_raise {α : Type} (cfg : Cfg) (ser : Serializer α)
    (src_pid : Nat) (st : QState) (msg : α) (e : PyError)
    (hic : cfg.integrity_check = true)
    (hl : ser.loads (ser.dumps msg) = .error e) :
    ∃ st2, ShmQueue.put cfg ser src_pid st msg = .error (e, st2) ∧
      st2.blocks = st.blocks := by
  refine ⟨{ st with mid_counter := st.mid_counter + 1 }, ?_, rfl⟩
  have hp : integrity_pre cfg ser (ser.dumps msg) = .error e := by
    unfold integrity_pre
    rw [if_pos hic, hl]
  unfold ShmQueue.put
  simp only [hp]

/-- Witness for `put_integrity_check_raise`: a serializer whose `loads` always
raises `pickle.UnpicklingError` makes `put` propagate it with the pool
untouched. -/
theorem put_integrity_check_raise_witness :
    ∃ st2, ShmQueue.put cfg42 badLoadsSerializer 42 (fresh_state cfg42) 5 =
      .error (.unpicklingError, st2) ∧ st2.blocks = (fresh_state cfg42).blocks :=
  put_integrity_check_raise cfg42 badLoadsSerializer 42 (fresh_state cfg42) 5
    .unpicklingError rfl rfl

/-- C8: a `get` whose head-claim scan finds no ready head chunk raises `Empty`
and returns the queue state exactly as it was — no block's metadata or payload
is modified. -/
theorem get_empty_unchanged {α : Type} (cfg : Cfg) (ser : Serializer α)
    (st : QState) (h : next_readable_msg st.blocks = none) :
    ShmQueue.get cfg ser st = some (.error (.empty, st)) := by
  unfold ShmQueue.get
  rw [h]

/-- Witness for `get_empty_unchanged`: non-blocking consume on a fresh pool. -/
theorem get_empty_unchanged_witness :
    ShmQueue.get cfg42 natSerializer (fresh_state cfg42) =
      some (.error (.empty, fresh_state cfg42)) :=
  get_empty_unchanged cfg42 natSerializer (fresh_state cfg42) (by decide)

/-- C6 (evaluating the code at the failing input): when `loads` raises
`pickle.UnpicklingError` and integrity checking is on, the handler's
diagnostic print (queue.py line 446) reads the nonexistent attribute
`self.pid` and therefore raises `AttributeError`, so the caller does NOT see
the underlying deserialization exception; the held block is still released
back to FREE by the `finally` clause. -/
theorem deser_error_masked :
    badLoadsSerializer.loads [7] = .error .unpicklingError ∧
    ShmQueue.get cfg_c6 badLoadsSerializer c6_state =
      some (.error (.attributeError, c6_released)) ∧
    count_free c6_released.blocks = cfg_c6.maxsize ∧
    PyError.attributeError ≠ PyError.unpicklingError := by decide

/-- Releasing one block does not change the pool size. -/
theorem length_set_msg_id_empty (blocks : List Block) (i : Nat) :
    (set_msg_id_empty blocks i).length = blocks.length := by
  unfold set_msg_id_empty
  cases h : blocks[i]? with
  | none => rfl
  | some b => simp [List.length_set]

/-- Releasing a list of blocks does not change the pool size. -/
theorem length_release_blocks (ids : List Nat) (blocks : List Block) :
    (release_blocks blocks ids).length = blocks.length := by
  induction ids generalizing blocks with
  | nil => rfl
  | cons i ids ih =>
    show (release_blocks (set_msg_id_empty blocks i) ids).length = _
    rw [ih, length_set_msg_id_empty]

/-- Releasing block `i` makes position `i` FREE (when in range) and leaves
every other position's freeness unchanged. -/
theorem free_at_set_msg_id_empty (blocks : List Block) (i j : Nat) :
    free_at (set_msg_id_empty blocks i) j =
      if j = i ∧ i < blocks.length then true else free_at blocks j := by
  unfold set_msg_id_empty
  cases h : blocks[i]? with
  | none =>
    have hi : ¬ i < blocks.length := by
      intro hlt
      rcases List.getElem?_eq_some.mpr ⟨hlt, rfl⟩ with h2
      rw [h] at h2
      cases h2
    simp [hi]
  | some b =>
    have hi : i < blocks.length := (List.getElem?_eq_some.mp h).1
    by_cases hji : j = i
    · subst hji
      unfold free_at
      rw [List.getElem?_set_self hi]
      simp [hi, EMPTY_MSG_ID]
    · unfold free_at
      rw [List.getElem?_set_ne (fun hh => hji hh.symm)]
      simp [hji]

/-- Releasing the blocks in `ids` makes exactly the in-range listed positions
FREE and leaves the others' freeness unchanged. -/
theorem free_at_release_blocks (ids : List Nat) (blocks : List Block) (j : Nat) :
    free_at (release_blocks blocks ids) j =
      if j ∈ ids ∧ j < blocks.length then true else free_at blocks j := by
  induction ids generalizing blocks with
  | nil => simp [release_blocks]
  | cons i ids ih =>
    show free_at (release_blocks (set_msg_id_empty blocks i) ids) j = _
    rw [ih, length_set_msg_id_empty, free_at_set_msg_id_empty]
    by_cases hji : j = i
    · subst hji
      by_cases hl : j < blocks.length
      · simp [hl]
      · simp [hl]
    · by_cases hm : j ∈ ids
      · by_cases hl : j < blocks.length
        · simp [hji, hm, hl]
        · simp [hji, hm, hl]
      · simp [hji, hm]

/-- Characterization of a successful writable-block scan: the returned index
held a FREE block, and the returned pool is the input pool with exactly that
block stamped reserved. -/
theorem next_writable_spec (msg_id src_pid : Nat) :
    ∀ blocks i bs2, next_writable_block_id msg_id src_pid blocks = some (i, bs2) →
    ∃ b, blocks[i]? = some b ∧ b.meta.msg_id = EMPTY_MSG_ID ∧
      bs2 = blocks.set i (reserve_meta b msg_id src_pid) := by
  intro blocks
  induction blocks with
  | nil => intro i bs2 h; cases h
  | cons b bs ih =>
    intro i bs2 h
    unfold next_writable_block_id at h
    by_cases hb : b.meta.msg_id = EMPTY_MSG_ID
    · rw [if_pos hb] at h
      cases h
      exact ⟨b, by simp, hb, rfl⟩
    · rw [if_neg hb] at h
      cases hr : next_writable_block_id msg_id src_pid bs with
      | none => rw [hr] at h; cases h
      | some p =>
        obtain ⟨i', bs2'⟩ := p
        rw [hr] at h
        cases h
        obtain ⟨b2, hg, he, hset⟩ := ih i' bs2' hr
        exact ⟨b2, by simpa using hg, he, by rw [hset]; rfl⟩

/-- Characterization of a failed reservation loop: the pool it hands back
agrees with the input pool outside the reserved ids, and every reserved id
was an in-range FREE position of the input pool. -/
theorem reserve_full_spec (msg_id src_pid : Nat) :
    ∀ n blocks ids bs2, reserve_blocks msg_id src_pid blocks n = .fullAfter ids bs2 →
    bs2.length = blocks.length ∧
    (∀ j, j ∉ ids → bs2[j]? = blocks[j]?) ∧
    (∀ j ∈ ids, j < blocks.length ∧ free_at blocks j = true) := by
  intro n
  induction n with
  | zero => intro blocks ids bs2 h; cases h
  | succ n ih =>
    intro blocks ids bs2 h
    unfold reserve_blocks at h
    cases hw : next_writable_block_id msg_id src_pid blocks with
    | none =>
      rw [hw] at h
      cases h
      exact ⟨rfl, fun j _ => rfl, by simp⟩
    | some p =>
      obtain ⟨i, blocks2⟩ := p
      rw [hw] at h
      dsimp only [] at h
      cases hr : reserve_blocks msg_id src_pid blocks2 n with
      | ok ids' bOut => rw [hr] at h; cases h
      | fullAfter ids' bOut =>
        rw [hr] at h
        cases h
        obtain ⟨hlen, hout, hfree⟩ := ih blocks2 ids' _ hr
        obtain ⟨b, hg, hfree0, hset⟩ := next_writable_spec msg_id src_pid blocks i blocks2 hw
        subst hset
        have hi : i < blocks.length := (List.getElem?_eq_some.mp hg).1
        refine ⟨by rw [hlen, List.length_set], ?_, ?_⟩
        · intro j hj
          have hji : j ≠ i := fun hh => hj (hh ▸ List.mem_cons_self _ _)
          have hjids : j ∉ ids' := fun hh => hj (List.mem_cons_of_mem _ hh)
          rw [hout j hjids, List.getElem?_set_ne (fun hh => hji hh.symm)]
        · intro j hj
          rcases List.mem_cons.mp hj with hji | hjm
          · subst hji
            refine ⟨hi, ?_⟩
            unfold free_at
            rw [hg]
            simp [hfree0, EMPTY_MSG_ID]
          · obtain ⟨hlt, hfr⟩ := hfree j hjm
            have hlt2 : j < blocks.length := by rwa [List.length_set] at hlt
            refine ⟨hlt2, ?_⟩
            by_cases hji : j = i
            · subst hji
              unfold free_at
              rw [hg]
              simp [hfree0, EMPTY_MSG_ID]
            · unfold free_at at hfr ⊢
              rw [List.getElem?_set_ne (fun hh => hji hh.symm)] at hfr
              exact hfr

/-- Freeness at the head of a pool. -/
theorem free_at_cons_zero (b : Block) (bs : List Block) :
    free_at (b :: bs) 0 = (b.meta.msg_id == EMPTY_MSG_ID) := by
  unfold free_at
  rw [List.getElem?_cons_zero]

/-- Freeness shifts across a cons. -/
theorem free_at_cons_succ (b : Block) (bs : List Block) (j : Nat) :
    free_at (b :: bs) (j + 1) = free_at bs j := by
  unfold free_at
  rw [List.getElem?_cons_succ]

/-- Two pools of the same size with pointwise equal freeness have the same
FREE count. -/
theorem count_free_eq_of_free_at (bs1 : List Block) :
    ∀ bs2 : List Block, bs1.length = bs2.length →
    (∀ j, free_at bs1 j = free_at bs2 j) →
    count_free bs1 = count_free bs2 := by
  induction bs1 with
  | nil =>
    intro bs2 hlen _
    cases bs2 with
    | nil => rfl
    | cons b bs => simp at hlen
  | cons b bs ih =>
    intro bs2 hlen h
    cases bs2 with
    | nil => simp at hlen
    | cons b2 bs2' =>
      have h0 := h 0
      rw [free_at_cons_zero, free_at_cons_zero] at h0
      have hrest := ih bs2' (by simpa using hlen) (fun j => by
        have hj := h (j + 1)
        rwa [free_at_cons_succ, free_at_cons_succ] at hj)
      unfold count_free at hrest ⊢
      rw [List.countP_cons, List.countP_cons, hrest, h0]

/-- C3: whenever `put` raises `Full`, every block it had reserved during the
call has been released back to FREE before the raise, so the count of FREE
blocks after the failed call equals the count just before it. -/
theorem full_rollback {α : Type} (cfg : Cfg) (ser : Serializer α) (src_pid : Nat)
    (st : QState) (msg : α) (st2 : QState)
    (h : ShmQueue.put cfg ser src_pid st msg = .error (.full, st2)) :
    count_free st2.blocks = count_free st.blocks := by
  unfold ShmQueue.put at h
  cases hp : integrity_pre cfg ser (ser.dumps msg) with
  | error e =>
    simp only [hp] at h
    obtain ⟨-, h2⟩ := Prod.mk.injEq .. ▸ Except.error.inj h
    rw [← h2]
  | ok u =>
    simp only [hp] at h
    by_cases hd : cfg.deadlock_immanent_check = true ∧
        ceil_div (ser.dumps msg).length cfg.chunk_size > cfg.maxsize
    · rw [if_pos hd] at h
      simp at h
    · rw [if_neg hd] at h
      cases hr : reserve_blocks (st.mid_counter + 1) src_pid st.blocks
          (ceil_div (ser.dumps msg).length cfg.chunk_size) with
      | ok ids bs2 => rw [hr] at h; cases h
      | fullAfter ids bs2 =>
        rw [hr] at h
        obtain ⟨-, h2⟩ := Prod.mk.injEq .. ▸ Except.error.inj h
        rw [← h2]
        obtain ⟨hlen, hout, hfree⟩ :=
          reserve_full_spec (st.mid_counter + 1) src_pid _ st.blocks ids bs2 hr
        apply count_free_eq_of_free_at
        · rw [length_release_blocks, hlen]
        · intro j
          rw [free_at_release_blocks]
          by_cases hm : j ∈ ids
          · obtain ⟨hlt, hfr⟩ := hfree j hm
            rw [if_pos ⟨hm, by rwa [hlen]⟩, hfr]
          · rw [if_neg (fun hh => hm hh.1)]
            unfold free_at
            rw [hout j hm]

/-- Witness for `full_rollback`: a two-chunk publish into a pool with a single
free block reserves one block, fails, rolls the reservation back and raises
`Full`; the FREE count (one) is unchanged. -/
theorem full_rollback_witness :
    ShmQueue.put cfg_c3 natSerializer 42 one_free_state 2 =
      .error (.full, c3_rolled) ∧
    count_free c3_rolled.blocks = count_free one_free_state.blocks :=
  ⟨by decide,
   full_rollback cfg_c3 natSerializer 42 one_free_state 2 c3_rolled (by decide)⟩

/-- Characterization of a successful head-claim scan: the selected block held
a nonzero `msg_id` and `chunk_id == 1`, the returned metadata comes from that
block, and the returned pool is the input pool with that block's `chunk_id`
rewritten to the reservation sentinel. -/
theorem next_readable_spec :
    ∀ blocks p m i n bs2, next_readable_msg blocks = some (p, m, i, n, bs2) →
    ∃ b, blocks[i]? = some b ∧ b.meta.msg_id ≠ EMPTY_MSG_ID ∧ b.meta.chunk_id = 1 ∧
      p = b.meta.src_pid ∧ m = b.meta.msg_id ∧ n = b.meta.total_chunks ∧
      bs2 = blocks.set i (claim_chunk b) := by
  intro blocks
  induction blocks with
  | nil => intro p m i n bs2 h; cases h
  | cons b bs ih =>
    intro p m i n bs2 h
    unfold next_readable_msg at h
    by_cases hb : b.meta.msg_id ≠ EMPTY_MSG_ID ∧ b.meta.chunk_id = 1
    · rw [if_pos hb] at h
      cases h
      exact ⟨b, by simp, hb.1, hb.2, rfl, rfl, rfl, rfl⟩
    · rw [if_neg hb] at h
      cases hr : next_readable_msg bs with
      | none => rw [hr] at h; cases h
      | some q =>
        obtain ⟨p', m', i', n', bs2'⟩ := q
        rw [hr] at h
        dsimp only [] at h
        cases h
        obtain ⟨b2, hg, h1, h2, h3, h4, h5, hset⟩ := ih _ _ i' _ bs2' hr
        exact ⟨b2, by simpa using hg, h1, h2, h3, h4, h5, by rw [hset]; rfl⟩

/-- C7: whenever the consumer's head-claim scan selects a block, that block
satisfied `msg_id != 0` and `chunk_id == 1`, and before the scan returns the
block's `chunk_id` has been rewritten to the reservation sentinel `0xFFFF`,
so a head scan over the resulting pool can never select that index again. -/
theorem head_claim_masks_block (blocks : List Block) (p m i n : Nat)
    (bs2 : List Block) (h : next_readable_msg blocks = some (p, m, i, n, bs2)) :
    (∃ b, blocks[i]? = some b ∧ b.meta.msg_id ≠ EMPTY_MSG_ID ∧ b.meta.chunk_id = 1 ∧
      bs2 = blocks.set i (claim_chunk b) ∧ bs2[i]? = some (claim_chunk b) ∧
      (claim_chunk b).meta.chunk_id = RESERVED_CHUNK_ID) ∧
    ∀ p2 m2 n2 bs3, next_readable_msg bs2 ≠ some (p2, m2, i, n2, bs3) := by
  obtain ⟨b, hg, h1, h2, _, _, _, hset⟩ := next_readable_spec blocks p m i n bs2 h
  have hi : i < blocks.length := (List.getElem?_eq_some.mp hg).1
  have hbs2i : bs2[i]? = some (claim_chunk b) := by
    rw [hset]
    exact List.getElem?_set_self hi
  refine ⟨⟨b, hg, h1, h2, hset, hbs2i, rfl⟩, ?_⟩
  intro p2 m2 n2 bs3 hcon
  obtain ⟨b2, hg2, _, hh2, _, _, _, _⟩ := next_readable_spec bs2 p2 m2 i n2 bs3 hcon
  rw [hbs2i] at hg2
  cases hg2
  simp [claim_chunk, RESERVED_CHUNK_ID] at hh2

/-- Witness for `head_claim_masks_block`: the scan over the one-message pool
`[c6_block]` selects block 0 and masks it. -/
theorem head_claim_masks_block_witness :
    (∃ b, [c6_block][0]? = some b ∧ b.meta.msg_id ≠ EMPTY_MSG_ID ∧
      b.meta.chunk_id = 1 ∧
      [claim_chunk c6_block] = [c6_block].set 0 (claim_chunk b) ∧
      [claim_chunk c6_block][0]? = some (claim_chunk b) ∧
      (claim_chunk b).meta.chunk_id = RESERVED_CHUNK_ID) ∧
    ∀ p2 m2 n2 bs3,
      next_readable_msg [claim_chunk c6_block] ≠ some (p2, m2, 0, n2, bs3) :=
  head_claim_masks_block [c6_block] 42 1 0 1 [claim_chunk c6_block] (by decide)

/-- C1 (counterexample): a zero-length serialized payload does NOT produce one
chunk — `total_chunks = ceil(0 / chunk_size) = 0`, the publish succeeds
having written nothing, and every block of the pool is still FREE (the
claimed "zero-byte payload occupies one block" is false). -/
theorem zero_payload_occupies_no_block :
    (emptySerializer.dumps 0).length = 0 ∧
    ceil_div (emptySerializer.dumps 0).length cfg42.chunk_size = 0 ∧
    ShmQueue.put cfg42 emptySerializer 42 (fresh_state cfg42) 0 =
      .ok { blocks := (fresh_state cfg42).blocks, mid_counter := 1 } ∧
    count_free (fresh_state cfg42).blocks = cfg42.maxsize := by decide

/-- For positive `c`, `ceil_div a c` chunks of `c` bytes cover `a` bytes. -/
theorem le_ceil_div_mul (a c : Nat) (hc : 0 < c) : a ≤ ceil_div a c * c := by
  unfold ceil_div
  rw [Nat.mul_comm]
  have h1 := Nat.div_add_mod (a + c - 1) c
  have h2 : (a + c - 1) % c < c := Nat.mod_lt _ hc
  generalize hX : c * ((a + c - 1) / c) = X at h1 ⊢
  omega

/-- Setting an element past a prefix acts on the suffix. -/
theorem set_append_length_add {α : Type} (l1 l2 : List α) (i : Nat) (x : α) :
    (l1 ++ l2).set (l1.length + i) x = l1 ++ l2.set i x := by
  induction l1 with
  | nil => simp
  | cons a l1 ih =>
    have h : (a :: l1).length + i = (l1.length + i) + 1 := by
      simp [Nat.succ_add]
    rw [h]
    show a :: (l1 ++ l2).set (l1.length + i) x = a :: (l1 ++ l2.set i x)
    rw [ih]

/-- Reading past a prefix reads the suffix. -/
theorem getElem?_append_length_add {α : Type} (l1 l2 : List α) (i : Nat) :
    (l1 ++ l2)[l1.length + i]? = l2[i]? := by
  rw [List.getElem?_append_right (by omega)]
  congr 1
  omega

/-- Shifting the start of a `range'` by one becomes a successor under `map`. -/
theorem map_range'_shift {α : Type} (f : Nat → α) :
    ∀ len s, (List.range' (s + 1) len).map f =
      (List.range' s len).map (fun i => f (i + 1)) := by
  intro len
  induction len with
  | zero => intro s; rfl
  | succ len ih =>
    intro s
    rw [List.range'_succ, List.range'_succ]
    simp only [List.map_cons]
    rw [ih (s + 1)]

/-- Chunk slices shift down when the first chunk is dropped. -/
theorem chunk_data_succ (body : Bytes) (c i : Nat) :
    chunk_data body c (i + 1) = chunk_data (body.drop c) c i := by
  unfold chunk_data
  rw [List.drop_drop]
  have h : c + i * c = (i + 1) * c := by ring
  rw [h]

/-- The first chunk slice is the first `c` bytes. -/
theorem chunk_data_zero (body : Bytes) (c : Nat) :
    chunk_data body c 0 = body.take c := by
  unfold chunk_data
  simp

/-- Flattening the `n` chunk slices of `body` reassembles `body` whenever the
chunks cover it. -/
theorem flatten_chunk_slices (c : Nat) :
    ∀ n body, body.length ≤ n * c →
    ((List.range' 0 n).map (chunk_data body c)).flatten = body := by
  intro n
  induction n with
  | zero =>
    intro body h
    have hb : body = [] := List.eq_nil_of_length_eq_zero (by omega)
    simp [hb]
  | succ n ih =>
    intro body h
    rw [List.range'_succ]
    simp only [List.map_cons, List.flatten_cons]
    rw [show (0 : Nat) + 1 = 0 + 1 from rfl, map_range'_shift (chunk_data body c) n 0]
    rw [List.map_congr_left (fun i _ => chunk_data_succ body c i)]
    rw [ih (body.drop c) (by
      have hs : (n + 1) * c = n * c + c := by ring
      simp only [List.length_drop]
      omega)]
    rw [chunk_data_zero, List.take_append_drop]

/-- The reservation scan skips a reserved prefix and claims the first FREE
block behind it. -/
theorem next_writable_after_replicate (msg_id src_pid : Nat) (r : Block)
    (hr : ¬ r.meta.msg_id = EMPTY_MSG_ID) (bfree : Block)
    (hfree : bfree.meta.msg_id = EMPTY_MSG_ID) :
    ∀ k rest, next_writable_block_id msg_id src_pid
        (List.replicate k r ++ bfree :: rest) =
      some (k, List.replicate k r ++ reserve_meta bfree msg_id src_pid :: rest) := by
  intro k
  induction k with
  | zero =>
    intro rest
    simp [next_writable_block_id, hfree]
  | succ k ih =>
    intro rest
    rw [List.replicate_succ]
    show next_writable_block_id msg_id src_pid
        (r :: (List.replicate k r ++ bfree :: rest)) = _
    unfold next_writable_block_id
    rw [if_neg hr, ih rest]
    simp [List.replicate_succ]

/-- Closed form of the reservation loop on a fresh pool: reserving `j` blocks
with the first `k` already reserved succeeds and takes blocks `k..k+j-1`. -/
theorem reserve_blocks_res_state (cfg : Cfg) (msg_id src_pid : Nat)
    (hmid : ¬ msg_id = EMPTY_MSG_ID) :
    ∀ j k, k + j ≤ cfg.maxsize →
    reserve_blocks msg_id src_pid (res_state cfg msg_id src_pid k) j =
      .ok (List.range' k j) (res_state cfg msg_id src_pid (k + j)) := by
  intro j
  induction j with
  | zero =>
    intro k hk
    simp [reserve_blocks]
  | succ j ih =>
    intro k hk
    have hsplit : res_state cfg msg_id src_pid k =
        List.replicate k (reserved_block cfg msg_id src_pid) ++
          free_block cfg.chunk_size ::
            List.replicate (cfg.maxsize - k - 1) (free_block cfg.chunk_size) := by
      unfold res_state
      have hm : cfg.maxsize - k = (cfg.maxsize - k - 1) + 1 := by omega
      nth_rewrite 1 [hm]
      rw [List.replicate_succ]
    unfold reserve_blocks
    rw [hsplit, next_writable_after_replicate msg_id src_pid _ hmid _ rfl]
    have hpool : List.replicate k (reserved_block cfg msg_id src_pid) ++
        reserve_meta (free_block cfg.chunk_size) msg_id src_pid ::
          List.replicate (cfg.maxsize - k - 1) (free_block cfg.chunk_size) =
        res_state cfg msg_id src_pid (k + 1) := by
      unfold res_state
      rw [List.replicate_succ']
      have hm2 : cfg.maxsize - (k + 1) = cfg.maxsize - k - 1 := by omega
      rw [hm2, List.append_assoc]
      rfl
    rw [hpool]
    dsimp only []
    rw [ih (k + 1) (by omega)]
    have hrange : List.range' k (j + 1) = k :: List.range' (k + 1) j :=
      List.range'_succ k j 1
    rw [hrange]
    have hkj : k + 1 + j = k + (j + 1) := by omega
    rw [hkj]

/-- During the commit loop, position `t` of the partially published pool still
holds the reservation stamp. -/
theorem pub_state_getElem_res (cfg : Cfg) (msg_id src_pid n tms : Nat)
    (body : Bytes) (t : Nat) (h : t < n) :
    (pub_state cfg msg_id src_pid n tms body t)[t]? =
      some (reserved_block cfg msg_id src_pid) := by
  unfold pub_state
  rw [List.getElem?_append_right (by simp)]
  simp only [List.length_map, List.length_range', Nat.sub_self]
  have hnt : n - t = (n - t - 1) + 1 := by omega
  rw [hnt, List.replicate_succ, List.cons_append, List.getElem?_cons_zero]

/-- Publishing chunk `t` into position `t` advances the partially published
pool by one block. -/
theorem pub_state_set_pub (cfg : Cfg) (msg_id src_pid n tms : Nat)
    (body : Bytes) (t : Nat) (h : t < n) :
    (pub_state cfg msg_id src_pid n tms body t).set t
        (pub_block cfg msg_id src_pid n tms body t) =
      pub_state cfg msg_id src_pid n tms body (t + 1) := by
  unfold pub_state
  have hs := set_append_length_add
    ((List.range' 0 t).map (pub_block cfg msg_id src_pid n tms body))
    (List.replicate (n - t) (reserved_block cfg msg_id src_pid) ++
      List.replicate (cfg.maxsize - n) (free_block cfg.chunk_size)) 0
    (pub_block cfg msg_id src_pid n tms body t)
  simp only [List.length_map, List.length_range', Nat.add_zero] at hs
  rw [hs]
  have hnt : n - t = (n - t - 1) + 1 := by omega
  rw [hnt, List.replicate_succ, List.cons_append]
  rw [List.range'_concat]
  simp only [List.map_append, List.map_cons, List.map_nil, Nat.zero_add,
    Nat.one_mul, List.append_assoc, List.cons_append, List.nil_append]
  rw [List.set_cons_zero]
  have hsub : n - (t + 1) = n - t - 1 := by omega
  rw [hsub]

/-- One step of the commit loop on a block that carries a reservation stamp
publishes chunk `t` into it. -/
theorem write_chunks_res_step (cfg : Cfg) (msg_id src_pid n tms : Nat)
    (body : Bytes) (blocks : List Block) (t id : Nat) (ids : List Nat)
    (hb : blocks[id]? = some (reserved_block cfg msg_id src_pid)) :
    write_chunks cfg msg_id n tms body blocks (id :: ids) t =
      write_chunks cfg msg_id n tms body
        (blocks.set id (pub_block cfg msg_id src_pid n tms body t)) ids (t + 1) := by
  unfold write_chunks
  rw [hb]
  by_cases hic : cfg.integrity_check <;>
    simp [hic, pub_block, set_data, reserved_block, reserve_meta, free_block] <;>
    (cases ids <;> simp [write_chunks, hic, set_data])

/-- Closed form of the commit loop on a fresh queue: writing chunks
`t..n-1` into blocks `t..n-1` of the partially published pool yields the
fully published pool. -/
theorem write_chunks_pub_state (cfg : Cfg) (msg_id src_pid tms : Nat)
    (body : Bytes) (n : Nat) :
    ∀ j t, t + j = n →
    write_chunks cfg msg_id n tms body
        (pub_state cfg msg_id src_pid n tms body t) (List.range' t j) t =
      pub_state cfg msg_id src_pid n tms body n := by
  intro j
  induction j with
  | zero =>
    intro t ht
    have h : t = n := by omega
    subst h
    rfl
  | succ j ih =>
    intro t ht
    rw [List.range'_succ]
    rw [write_chunks_res_step cfg msg_id src_pid n tms body _ t t _
      (pub_state_getElem_res cfg msg_id src_pid n tms body t (by omega))]
    rw [pub_state_set_pub cfg msg_id src_pid n tms body t (by omega)]
    exact ih (t + 1) (by omega)

/-- Closed form of a publish on a fresh queue: it succeeds, the first
`total_chunks` blocks hold the message's chunks in order, the remaining
blocks are untouched, and message id 1 was consumed. -/
theorem put_fresh {α : Type} (cfg : Cfg) (ser : Serializer α) (msg : α)
    (src_pid : Nat)
    (hpre : integrity_pre cfg ser (ser.dumps msg) = .ok ())
    (hnm : ceil_div (ser.dumps msg).length cfg.chunk_size ≤ cfg.maxsize) :
    ShmQueue.put cfg ser src_pid (fresh_state cfg) msg =
      .ok { blocks := pub_state cfg 1 src_pid
              (ceil_div (ser.dumps msg).length cfg.chunk_size)
              (ser.dumps msg).length (ser.dumps msg)
              (ceil_div (ser.dumps msg).length cfg.chunk_size),
            mid_counter := 1 } := by
  unfold ShmQueue.put
  simp only [hpre, fresh_state, Nat.zero_add]
  rw [if_neg (fun h => (Nat.not_lt.mpr hnm) h.2)]
  have h0 : List.replicate cfg.maxsize (free_block cfg.chunk_size) =
      res_state cfg 1 src_pid 0 := by
    simp [res_state]
  rw [h0, reserve_blocks_res_state cfg 1 src_pid (by decide)
    (ceil_div (ser.dumps msg).length cfg.chunk_size) 0 (by omega)]
  dsimp only []
  have h1 : res_state cfg 1 src_pid
      (0 + ceil_div (ser.dumps msg).length cfg.chunk_size) =
      pub_state cfg 1 src_pid (ceil_div (ser.dumps msg).length cfg.chunk_size)
        (ser.dumps msg).length (ser.dumps msg) 0 := by
    simp [res_state, pub_state]
  rw [h1, write_chunks_pub_state cfg 1 src_pid (ser.dumps msg).length
    (ser.dumps msg) (ceil_div (ser.dumps msg).length cfg.chunk_size)
    (ceil_div (ser.dumps msg).length cfg.chunk_size) 0 (by omega)]

/-- The head-claim scan on the pool holding one fully published message
selects block 0 (the head chunk) and masks it. -/
theorem next_readable_pub_state (cfg : Cfg) (msg_id src_pid n tms : Nat)
    (body : Bytes) (hmid : ¬ msg_id = EMPTY_MSG_ID) (hn : 1 ≤ n) :
    next_readable_msg (pub_state cfg msg_id src_pid n tms body n) =
      some (src_pid, msg_id, 0, n, claimed_state cfg msg_id src_pid n tms body) := by
  obtain ⟨n', rfl⟩ : ∃ n', n = n' + 1 := ⟨n - 1, by omega⟩
  unfold pub_state
  rw [List.range'_succ]
  simp only [List.map_cons, Nat.sub_self, List.replicate_zero, List.nil_append,
    List.cons_append]
  unfold next_readable_msg
  rw [if_pos ⟨hmid, rfl⟩]
  unfold claimed_state
  simp [pub_block, claim_chunk, Nat.add_sub_cancel]

/-- Scanning a run of published non-head chunks for chunk `k` finds it at its
position in the run. -/
theorem read_next_pub_seg (cfg : Cfg) (msg_id src_pid n tms : Nat)
    (body : Bytes) (k : Nat) :
    ∀ len s tail, 1 ≤ s → s ≤ k - 1 → k - 1 < s + len →
    read_next_block_id src_pid msg_id k
        ((List.range' s len).map (pub_block cfg msg_id src_pid n tms body) ++ tail) =
      some (k - 1 - s) := by
  intro len
  induction len with
  | zero =>
    intro s tail h1 h2 h3
    omega
  | succ len ih =>
    intro s tail h1 h2 h3
    rw [List.range'_succ]
    simp only [List.map_cons, List.cons_append]
    unfold read_next_block_id
    by_cases hsk : s + 1 = k
    · have hc : (pub_block cfg msg_id src_pid n tms body s).meta.msg_id = msg_id ∧
          (pub_block cfg msg_id src_pid n tms body s).meta.chunk_id = k ∧
          (pub_block cfg msg_id src_pid n tms body s).meta.src_pid = src_pid := by
        refine ⟨rfl, ?_, rfl⟩
        show s + 1 = k
        exact hsk
      rw [if_pos hc]
      congr 1
      omega
    · have hcn : ¬ ((pub_block cfg msg_id src_pid n tms body s).meta.msg_id = msg_id ∧
          (pub_block cfg msg_id src_pid n tms body s).meta.chunk_id = k ∧
          (pub_block cfg msg_id src_pid n tms body s).meta.src_pid = src_pid) := by
        intro hcon
        exact hsk hcon.2.1
      rw [if_neg hcn]
      rw [ih (s + 1) tail (by omega) (by omega) (by omega)]
      dsimp only []
      congr 1
      omega

/-- Gathering chunk `k` (for `2 ≤ k ≤ n < 0xFFFF`) of the claimed message
finds block `k - 1`; the masked head cannot be mistaken for it because its
`chunk_id` is the reservation sentinel. -/
theorem read_next_claimed (cfg : Cfg) (msg_id src_pid n tms : Nat)
    (body : Bytes) (k : Nat) (hk2 : 2 ≤ k) (hkn : k ≤ n)
    (hres : n < RESERVED_CHUNK_ID) :
    read_next_block_id src_pid msg_id k
        (claimed_state cfg msg_id src_pid n tms body) = some (k - 1) := by
  unfold claimed_state
  unfold read_next_block_id
  have hne : ¬ ((claim_chunk (pub_block cfg msg_id src_pid n tms body 0)).meta.msg_id
        = msg_id ∧
      (claim_chunk (pub_block cfg msg_id src_pid n tms body 0)).meta.chunk_id = k ∧
      (claim_chunk (pub_block cfg msg_id src_pid n tms body 0)).meta.src_pid
        = src_pid) := by
    intro hcon
    have h2 : RESERVED_CHUNK_ID = k := hcon.2.1
    unfold RESERVED_CHUNK_ID at h2
    unfold RESERVED_CHUNK_ID at hres
    omega
  rw [if_neg hne]
  rw [read_next_pub_seg cfg msg_id src_pid n tms body k (n - 1) 1 _
    (by omega) (by omega) (by omega)]
  dsimp only []
  congr 1
  omega

/-- The gather loop over the claimed pool returns block ids `k-1 .. n-1` for
chunk ids `k .. n`. -/
theorem gather_claimed (cfg : Cfg) (msg_id src_pid n tms : Nat) (body : Bytes)
    (hres : n < RESERVED_CHUNK_ID) :
    ∀ cnt k, 2 ≤ k → k + cnt = n + 1 →
    gather_ids (claimed_state cfg msg_id src_pid n tms body) src_pid msg_id k cnt =
      some (List.range' (k - 1) cnt) := by
  intro cnt
  induction cnt with
  | zero =>
    intro k h2 hkn
    rfl
  | succ cnt ih =>
    intro k h2 hkn
    unfold gather_ids
    rw [read_next_claimed cfg msg_id src_pid n tms body k h2 (by omega) hres]
    rw [ih (k + 1) (by omega) (by omega)]
    dsimp only []
    have hk1 : k - 1 + 1 = k := by omega
    have hk2 : k + 1 - 1 = k := by omega
    rw [List.range'_succ, hk1, hk2]

/-- In the claimed pool, position 0 is the masked head. -/
theorem claimed_getElem_head (cfg : Cfg) (msg_id src_pid n tms : Nat)
    (body : Bytes) :
    (claimed_state cfg msg_id src_pid n tms body)[0]? =
      some (claim_chunk (pub_block cfg msg_id src_pid n tms body 0)) := by
  unfold claimed_state
  rw [List.getElem?_cons_zero]

/-- In the claimed pool, positions `1 .. n-1` hold the published non-head
chunks. -/
theorem claimed_getElem_pub (cfg : Cfg) (msg_id src_pid n tms : Nat)
    (body : Bytes) (i : Nat) (h1 : 1 ≤ i) (h2 : i < n) :
    (claimed_state cfg msg_id src_pid n tms body)[i]? =
      some (pub_block cfg msg_id src_pid n tms body i) := by
  unfold claimed_state
  obtain ⟨i', rfl⟩ : ∃ i', i = i' + 1 := ⟨i - 1, by omega⟩
  rw [List.getElem?_cons_succ]
  rw [List.getElem?_append]
  rw [if_pos (by simp; omega)]
  rw [List.getElem?_map]
  rw [List.getElem?_range' 1 1 (show i' < n - 1 by omega)]
  have h3 : 1 + 1 * i' = i' + 1 := by omega
  rw [h3]
  rfl

/-- Copy-out over a run of published non-head chunks returns the chunk slices
and threads the head's total size through unchanged. -/
theorem read_chunks_claimed_seg (cfg : Cfg) (msg_id src_pid n tms : Nat)
    (body : Bytes) :
    ∀ j s tIn, 1 ≤ s → s + j ≤ n →
    read_chunks cfg (claimed_state cfg msg_id src_pid n tms body)
        (List.range' s j) s tIn =
      .ok ((List.range' s j).map (chunk_data body cfg.chunk_size), tIn) := by
  intro j
  induction j with
  | zero =>
    intro s tIn h1 h2
    rfl
  | succ j ih =>
    intro s tIn h1 h2
    rw [List.range'_succ]
    unfold read_chunks
    rw [claimed_getElem_pub cfg msg_id src_pid n tms body s h1 (by omega)]
    dsimp only []
    have hchunk : (pub_block cfg msg_id src_pid n tms body s).data.take
        (pub_block cfg msg_id src_pid n tms body s).meta.msg_size =
        chunk_data body cfg.chunk_size s := List.take_left _ _
    have hs0 : ¬ (cfg.integrity_check = true ∧ s = 0) := fun hcon => by omega
    rw [if_neg hs0]
    have hck : ¬ (cfg.integrity_check = true ∧
        ¬ adler32 ((pub_block cfg msg_id src_pid n tms body s).data.take
            (pub_block cfg msg_id src_pid n tms body s).meta.msg_size) =
          (pub_block cfg msg_id src_pid n tms body s).meta.checksum) := by
      rintro ⟨hic, hne⟩
      apply hne
      rw [hchunk]
      show adler32 (chunk_data body cfg.chunk_size s) =
        (if cfg.integrity_check then adler32 (chunk_data body cfg.chunk_size s) else 0)
      rw [if_pos hic]
    rw [if_neg hck]
    rw [ih (s + 1) tIn (by omega) (by omega)]
    dsimp only []
    rw [hchunk]
    simp only [List.map_cons]

/-- Copy-out of the whole claimed message returns all chunk slices; the
returned total size is the head's `total_msg_size` when integrity checking is
on and the untouched 0 otherwise. -/
theorem read_chunks_claimed_all (cfg : Cfg) (msg_id src_pid n tms : Nat)
    (body : Bytes) (hn : 1 ≤ n) :
    read_chunks cfg (claimed_state cfg msg_id src_pid n tms body)
        (0 :: List.range' 1 (n - 1)) 0 0 =
      .ok ((List.range' 0 n).map (chunk_data body cfg.chunk_size),
        if cfg.integrity_check then tms else 0) := by
  unfold read_chunks
  rw [claimed_getElem_head cfg msg_id src_pid n tms body]
  dsimp only []
  have hchunk : (claim_chunk (pub_block cfg msg_id src_pid n tms body 0)).data.take
      (claim_chunk (pub_block cfg msg_id src_pid n tms body 0)).meta.msg_size =
      chunk_data body cfg.chunk_size 0 := List.take_left _ _
  have htms2 : (if cfg.integrity_check = true ∧ (0 : Nat) = 0 then
      (claim_chunk (pub_block cfg msg_id src_pid n tms body 0)).meta.total_msg_size
      else 0) = if cfg.integrity_check then tms else 0 := by
    by_cases hic : cfg.integrity_check = true
    · rw [if_pos ⟨hic, rfl⟩]
      show (if cfg.integrity_check then tms else 0) = _
      rfl
    · rw [if_neg (fun hcon => hic hcon.1), if_neg hic]
  rw [htms2]
  have hck : ¬ (cfg.integrity_check = true ∧
      ¬ adler32 ((claim_chunk (pub_block cfg msg_id src_pid n tms body 0)).data.take
          (claim_chunk (pub_block cfg msg_id src_pid n tms body 0)).meta.msg_size) =
        (claim_chunk (pub_block cfg msg_id src_pid n tms body 0)).meta.checksum) := by
    rintro ⟨hic, hne⟩
    apply hne
    rw [hchunk]
    show adler32 (chunk_data body cfg.chunk_size 0) =
      (if cfg.integrity_check then adler32 (chunk_data body cfg.chunk_size 0) else 0)
    rw [if_pos hic]
  rw [if_neg hck]
  rw [read_chunks_claimed_seg cfg msg_id src_pid n tms body (n - 1) 1
    (if cfg.integrity_check then tms else 0) (by omega) (by omega)]
  dsimp only []
  rw [hchunk]
  obtain ⟨n', rfl⟩ : ∃ n', n = n' + 1 := ⟨n - 1, by omega⟩
  rw [List.range'_succ]
  simp only [Nat.add_sub_cancel, List.map_cons]

/-- A consume on the pool holding exactly one fully published message claims
its head, gathers its chunks in order, verifies them, deserializes the
reassembled bytes and releases every held block. -/
theorem get_pub_state {α : Type} (cfg : Cfg) (ser : Serializer α)
    (msg_id src_pid n : Nat) (body : Bytes) (x : α) (mid2 : Nat)
    (hmid : ¬ msg_id = EMPTY_MSG_ID) (hn : 1 ≤ n)
    (hres : n < RESERVED_CHUNK_ID)
    (hcover : body.length ≤ n * cfg.chunk_size)
    (hloads : ser.loads body = .ok x) :
    ShmQueue.get cfg ser
        { blocks := pub_state cfg msg_id src_pid n body.length body n,
          mid_counter := mid2 } =
      some (.ok (x,
        { blocks := release_blocks
            (claimed_state cfg msg_id src_pid n body.length body)
            (0 :: List.range' 1 (n - 1)),
          mid_counter := mid2 })) := by
  unfold ShmQueue.get
  dsimp only []
  rw [next_readable_pub_state cfg msg_id src_pid n body.length body hmid hn]
  dsimp only []
  rw [gather_claimed cfg msg_id src_pid n body.length body hres (n - 1) 2
    (by omega) (by omega)]
  dsimp only []
  rw [if_neg (show ¬ n < (0 :: List.range' 1 (n - 1)).length by
    simp [List.length_range']; omega)]
  rw [read_chunks_claimed_all cfg msg_id src_pid n body.length body hn]
  dsimp only []
  rw [flatten_chunk_slices cfg.chunk_size n body hcover]
  rw [if_neg (show ¬ (cfg.integrity_check = true ∧
      ¬ (if cfg.integrity_check then body.length else 0) = body.length) by
    rintro ⟨hic, hne⟩
    exact hne (if_pos hic))]
  rw [hloads]

/-- The sum of the `msg_size` fields over the whole pool after a fresh-queue
publish equals the payload length. -/
theorem pub_state_msg_size_sum (cfg : Cfg) (msg_id src_pid n tms : Nat)
    (body : Bytes) (hcover : body.length ≤ n * cfg.chunk_size) :
    ((pub_state cfg msg_id src_pid n tms body n).map
      (fun b => b.meta.msg_size)).sum = body.length := by
  have hflat := congrArg List.length (flatten_chunk_slices cfg.chunk_size n body hcover)
  rw [List.length_flatten, List.map_map] at hflat
  unfold pub_state
  simp only [Nat.sub_self, List.replicate_zero, List.nil_append, List.map_append,
    List.sum_append, List.map_map, List.map_replicate]
  have hfree : (free_block cfg.chunk_size).meta.msg_size = 0 := rfl
  rw [hfree, List.sum_replicate]
  have hcomp : ((fun b : Block => b.meta.msg_size) ∘
      pub_block cfg msg_id src_pid n tms body) =
      (List.length ∘ chunk_data body cfg.chunk_size) := rfl
  rw [hcomp, hflat]
  simp

/-- The count of FREE blocks after a fresh-queue publish is the pool size
minus the number of chunks written. -/
theorem pub_state_count_free (cfg : Cfg) (msg_id src_pid n tms : Nat)
    (body : Bytes) (hmid : ¬ msg_id = EMPTY_MSG_ID) :
    count_free (pub_state cfg msg_id src_pid n tms body n) = cfg.maxsize - n := by
  unfold pub_state count_free
  simp only [Nat.sub_self, List.replicate_zero, List.nil_append, List.countP_append]
  have h1 : List.countP (fun b : Block => b.meta.msg_id == EMPTY_MSG_ID)
      ((List.range' 0 n).map (pub_block cfg msg_id src_pid n tms body)) = 0 := by
    rw [List.countP_eq_zero]
    intro b hb
    obtain ⟨i, _, rfl⟩ := List.mem_map.mp hb
    simpa [pub_block, EMPTY_MSG_ID] using hmid
  have h2 : List.countP (fun b : Block => b.meta.msg_id == EMPTY_MSG_ID)
      (List.replicate (cfg.maxsize - n) (free_block cfg.chunk_size)) =
      cfg.maxsize - n := by
    rw [List.countP_eq_length.mpr]
    · exact List.length_replicate _ _
    · intro b hb
      rw [List.eq_of_mem_replicate hb]
      rfl
  rw [h1, h2]
  omega

/-- The fully published pool with zero chunks is the fresh pool. -/
theorem pub_state_zero (cfg : Cfg) (msg_id src_pid tms : Nat) (body : Bytes) :
    pub_state cfg msg_id src_pid 0 tms body 0 =
      List.replicate cfg.maxsize (free_block cfg.chunk_size) := by
  simp [pub_state]

/-- C5 (amended): on a fresh queue, after exactly one publish of a message
whose serialized form is nonempty, needs at most `maxsize` chunks and fewer
than `0xFFFF` chunks, and whose serializer round-trips, consume returns an
object equal to the published message (the bytes handed to `loads` are the
bytes `dumps` produced). -/
theorem single_message_round_trip {α : Type} (cfg : Cfg) (ser : Serializer α)
    (msg : α) (src_pid : Nat)
    (hc : 0 < cfg.chunk_size)
    (hrt : ser.loads (ser.dumps msg) = .ok msg)
    (hn1 : 1 ≤ ceil_div (ser.dumps msg).length cfg.chunk_size)
    (hnm : ceil_div (ser.dumps msg).length cfg.chunk_size ≤ cfg.maxsize)
    (hres : ceil_div (ser.dumps msg).length cfg.chunk_size < RESERVED_CHUNK_ID) :
    ∃ st1 st2, ShmQueue.put cfg ser src_pid (fresh_state cfg) msg = .ok st1 ∧
      ShmQueue.get cfg ser st1 = some (.ok (msg, st2)) := by
  have hpre : integrity_pre cfg ser (ser.dumps msg) = .ok () := by
    unfold integrity_pre
    by_cases hic : cfg.integrity_check = true
    · rw [if_pos hic, hrt]
    · rw [if_neg hic]
  have hput := put_fresh cfg ser msg src_pid hpre hnm
  have hget := get_pub_state cfg ser 1 src_pid
    (ceil_div (ser.dumps msg).length cfg.chunk_size) (ser.dumps msg) msg 1
    (by decide) hn1 hres
    (le_ceil_div_mul (ser.dumps msg).length cfg.chunk_size hc) hrt
  exact ⟨_, _, hput, hget⟩

/-- Witness for `single_message_round_trip`: a 5-byte message (two chunks of
four and one byte) published into `cfg42` and consumed back. -/
theorem single_message_round_trip_witness :
    ∃ st1 st2, ShmQueue.put cfg42 natSerializer 42 (fresh_state cfg42) 5 =
        .ok st1 ∧
      ShmQueue.get cfg42 natSerializer st1 = some (.ok (5, st2)) :=
  single_message_round_trip cfg42 natSerializer 5 42 (by decide) (by decide)
    (by decide) (by decide) (by decide)

/-- C5 (counterexample): with a serializer whose serialized form is empty
(which round-trips and needs `0 ≤ maxsize` chunks), one publish succeeds but
writes nothing, and the following consume raises `Empty` instead of returning
the message — the round-trip claim fails as stated. -/
theorem round_trip_fails_on_empty_serialization :
    emptySerializer.loads (emptySerializer.dumps 0) = .ok 0 ∧
    ceil_div (emptySerializer.dumps 0).length cfg42.chunk_size ≤ cfg42.maxsize ∧
    ShmQueue.put cfg42 emptySerializer 42 (fresh_state cfg42) 0 =
      .ok { blocks := (fresh_state cfg42).blocks, mid_counter := 1 } ∧
    ShmQueue.get cfg42 emptySerializer
        { blocks := (fresh_state cfg42).blocks, mid_counter := 1 } =
      some (.error (.empty,
        { blocks := (fresh_state cfg42).blocks, mid_counter := 1 })) := by decide

/-- C1 (amended): on a fresh queue, publish computes
`total_chunks = ceil(len / chunk_size)`; the per-chunk `msg_size` values over
the pool sum to the payload length and exactly `total_chunks` blocks leave
the FREE state; a zero-length serialized payload produces ZERO chunks — the
publish succeeds occupying no block at all. -/
theorem put_chunk_accounting {α : Type} (cfg : Cfg) (ser : Serializer α)
    (msg : α) (src_pid : Nat)
    (hc : 0 < cfg.chunk_size)
    (hpre : integrity_pre cfg ser (ser.dumps msg) = .ok ())
    (hnm : ceil_div (ser.dumps msg).length cfg.chunk_size ≤ cfg.maxsize) :
    ∃ st1, ShmQueue.put cfg ser src_pid (fresh_state cfg) msg = .ok st1 ∧
      (st1.blocks.map (fun b => b.meta.msg_size)).sum = (ser.dumps msg).length ∧
      count_free st1.blocks =
        cfg.maxsize - ceil_div (ser.dumps msg).length cfg.chunk_size ∧
      ((ser.dumps msg).length = 0 →
        ceil_div (ser.dumps msg).length cfg.chunk_size = 0 ∧
        st1.blocks = (fresh_state cfg).blocks) := by
  refine ⟨_, put_fresh cfg ser msg src_pid hpre hnm, ?_, ?_, ?_⟩
  · exact pub_state_msg_size_sum cfg 1 src_pid _ _ (ser.dumps msg)
      (le_ceil_div_mul _ _ hc)
  · exact pub_state_count_free cfg 1 src_pid _ _ (ser.dumps msg) (by decide)
  · intro h0
    have hn0 : ceil_div (ser.dumps msg).length cfg.chunk_size = 0 := by
      unfold ceil_div
      rw [h0]
      exact Nat.div_eq_of_lt (by omega)
    refine ⟨hn0, ?_⟩
    show pub_state cfg 1 src_pid (ceil_div (ser.dumps msg).length cfg.chunk_size)
        (ser.dumps msg).length (ser.dumps msg)
        (ceil_div (ser.dumps msg).length cfg.chunk_size) =
      (fresh_state cfg).blocks
    rw [hn0]
    exact pub_state_zero cfg 1 src_pid _ (ser.dumps msg)

/-- Witness for `put_chunk_accounting`: the 5-byte message occupies two
blocks whose `msg_size` fields (4 and 1) sum to 5. -/
theorem put_chunk_accounting_witness :
    ∃ st1, ShmQueue.put cfg42 natSerializer 42 (fresh_state cfg42) 5 = .ok st1 ∧
      (st1.blocks.map (fun b => b.meta.msg_size)).sum =
        (natSerializer.dumps 5).length ∧
      count_free st1.blocks =
        cfg42.maxsize - ceil_div (natSerializer.dumps 5).length cfg42.chunk_size ∧
      ((natSerializer.dumps 5).length = 0 →
        ceil_div (natSerializer.dumps 5).length cfg42.chunk_size = 0 ∧
        st1.blocks = (fresh_state cfg42).blocks) :=
  put_chunk_accounting cfg42 natSerializer 5 42 (by decide) (by decide) (by decide)

end Pyrallel
